import Mathlib

set_option maxRecDepth 10000

/-!
Verification of the CAB image-matching core of `semoPDFwatermark`:
a shallow embedding of `cab/image_index.py` and `cab/feature_extractor.py`
(filename sanitization, FAISS-backed similarity index, ROI detection,
embedding fusion, ORB similarity), with theorems about their behaviour.
Strings are `List Char`, machine floats are modelled by exact rationals,
and OS / library effects (file reads, FAISS, OpenCV) are passed in as
explicit inputs.
-/

namespace CabSpec

/-! ## Filename sanitization (`_sanitize_filename` in `cab/image_index.py`) -/

/-- The whitespace characters removed by Python `str.strip()`
(ASCII whitespace model). -/
def pyWhitespace (c : Char) : Bool :=
  c == ' ' || c == '\t' || c == '\n' || c == '\r' || c == '\x0b' || c == '\x0c'

/-- The characters removed by `.strip('"\'')`. -/
def quoteChar (c : Char) : Bool :=
  c == '"' || c == '\''

/-- Character-level model of `unicodedata.normalize('NFKC', name)` restricted to
the fullwidth punctuation this code path is concerned with; each of these
characters has a singleton, context-free NFKC mapping, and the model is the
identity on every other character. -/
def nfkcChar (c : Char) : Char :=
  if c = '，' then ',' else
  if c = '。' then '.' else
  if c = '；' then ';' else
  if c = '　' then ' ' else c

/-- The trailing separators removed by the while-loop of `_sanitize_filename`:
`['，', '。', '；', ',', ';', ' ']`. -/
def trailingPunct (c : Char) : Bool :=
  c == '，' || c == '。' || c == '；' || c == ',' || c == ';' || c == ' '

/-- Python `s.strip(chars)`: remove the matching characters from both ends. -/
def pyStrip (p : Char → Bool) (l : List Char) : List Char :=
  (l.dropWhile p).rdropWhile p

/-- `os.path.basename` on POSIX: the component after the last `'/'`. -/
def basename (l : List Char) : List Char :=
  l.rtakeWhile (fun c => c != '/')

/-- `_sanitize_filename(raw_name)`: NFKC-normalize, strip surrounding
whitespace, strip surrounding quotes, drop trailing separator punctuation,
and keep only the base filename component. -/
def sanitize_filename (s : List Char) : List Char :=
  basename (List.rdropWhile trailingPunct
    (pyStrip quoteChar (pyStrip pyWhitespace (s.map nfkcChar))))

/-- Both ends of a string are free of whitespace and quote characters. -/
def edgeOk (l : List Char) : Bool :=
  (match l.head? with
   | some c => !(pyWhitespace c || quoteChar c)
   | none => true) &&
  (match l.getLast? with
   | some c => !(pyWhitespace c || quoteChar c)
   | none => true)

/-! ## Vectors (rows of the FAISS index, exact-rational model of float32) -/

/-- Inner product, as computed by the `IndexFlatIP` index. -/
def dot (u v : List ℚ) : ℚ :=
  (List.zipWith (fun a b => a * b) u v).sum

/-- Squared Euclidean norm. -/
def norm2sq (v : List ℚ) : ℚ :=
  (v.map (fun x => x * x)).sum

/-- Pointwise sum of two feature vectors. -/
def vecAdd (u v : List ℚ) : List ℚ :=
  List.zipWith (fun a b => a + b) u v

/-- Scalar multiple of a feature vector. -/
def smul (a : ℚ) (v : List ℚ) : List ℚ :=
  v.map (fun x => a * x)

/-! ## Index state (`ImageIndex` in `cab/image_index.py`) -/

/-- The in-memory state of an `ImageIndex`: the rows of the FAISS index
(`index.ntotal = vectors.length`), the parallel metadata list of
`(filename, answer)` pairs, and the FAISS index's dimension `d`. -/
structure IndexState where
  vectors : List (List ℚ)
  metadata : List (String × String)
  dim : ℕ
deriving DecidableEq

/-- A freshly created `faiss.IndexFlatIP(512)` with empty metadata. -/
def emptyIndex : IndexState := ⟨[], [], 512⟩

/-- What `load_index` finds on disk: both files missing (or only one present),
present but failing to deserialize, or a successfully deserialized pair. -/
inductive LoadSource where
  | missing : LoadSource
  | corrupt : LoadSource
  | stored (d : ℕ) (vectors : List (List ℚ)) (metadata : List (String × String)) : LoadSource
deriving DecidableEq

/-- `ImageIndex.load_index`: deserialize the persisted pair when possible;
on missing files or any deserialization error, start from the empty
512-dimensional inner-product index (the `except` branch). -/
def load_index : LoadSource → IndexState
  | .missing => emptyIndex
  | .corrupt => emptyIndex
  | .stored d v m => ⟨v, m, d⟩

/-- `ImageIndex.add_image`: append the (reshaped-to-one-row) feature vector to
the FAISS index and `(filename, answer)` to the metadata list. -/
def add_image (filename answer : String) (features : List ℚ) (st : IndexState) :
    IndexState :=
  { st with
    vectors := st.vectors ++ [features]
    metadata := st.metadata ++ [(filename, answer)] }

/-- `ImageIndex.remove_image`: collect the metadata positions whose filename
matches; if none, warn and leave the state unchanged; otherwise delete those
metadata entries. The FAISS vectors are not touched. -/
def remove_image (filename : String) (st : IndexState) : IndexState :=
  if st.metadata.filter (fun e => e.1 == filename) = [] then st
  else { st with metadata := st.metadata.filter (fun e => e.1 != filename) }

/-! ## Similarity search (`ImageIndex.search_similar`) -/

/-- One entry of the list returned by `search_similar`. -/
structure MatchResult where
  filename : String
  answer : String
  similarity : ℚ
  rank : ℕ
deriving DecidableEq

/-- Insert into a list kept in non-increasing `key` order, before the first
strictly smaller element (the stable position). -/
def insertDescBy (key : α → ℚ) (x : α) : List α → List α
  | [] => [x]
  | y :: ys => if key y ≤ key x then x :: y :: ys else y :: insertDescBy key x ys

/-- Stable sort into non-increasing `key` order; models Python
`list.sort(key=..., reverse=True)`. -/
def sortDescBy (key : α → ℚ) : List α → List α
  | [] => []
  | x :: xs => insertDescBy key x (sortDescBy key xs)

/-- Model of `faiss.IndexFlatIP.search` on a single query row: every stored
row's exact inner product with the query, returned as `(score, id)` pairs in
non-increasing score order (ties in ascending id order), truncated to `k`.
The caller always passes `k ≤ ntotal`, so no `-1` padding ids arise. -/
def faissTopK (vectors : List (List ℚ)) (q : List ℚ) (k : ℕ) :
    List (ℚ × ℕ) :=
  (sortDescBy (fun p => p.1) (vectors.enum.map (fun p => (dot q p.2, p.1)))).take k

/-- `ImageIndex.search_similar` (the result-producing part, inside the `try`):
empty index short-circuits to `[]`; otherwise ask the index for
`min top_k ntotal` hits, keep those whose id is a valid metadata position,
tag each with rank = its 1-based position in the FAISS output, and finally
sort by similarity in non-increasing order. -/
def search_similar (st : IndexState) (q : List ℚ) (top_k : ℕ) :
    List MatchResult :=
  if st.vectors.length = 0 then []
  else
    sortDescBy (fun r => r.similarity)
      ((faissTopK st.vectors q (min top_k st.vectors.length)).enum.filterMap
        (fun p =>
          if h : p.2.2 < st.metadata.length then
            some { filename := (st.metadata.get ⟨p.2.2, h⟩).1
                   answer := (st.metadata.get ⟨p.2.2, h⟩).2
                   similarity := p.2.1
                   rank := p.1 + 1 }
          else none))

/-- `search_similar` including the optional second-stage block of lines
215-227: the block reads `CAB_ORB_RERANK` and `CAB_ORB_WEIGHT`, clamps the
weight and constructs an `ImageFeatureExtractor`, but computes no ORB score
and never touches `results`, so the returned list does not depend on either
parameter. -/
def search_similar_env (rerankEnabled : Bool) (orbWeightEnv : ℚ)
    (st : IndexState) (q : List ℚ) (top_k : ℕ) : List MatchResult :=
  let _orb_weight := max 0 (min 1 orbWeightEnv)
  let _use_rerank := rerankEnabled
  search_similar st q top_k

/-- The whole `search_similar` body including its outer `try/except`:
`raised = true` models any internal exception, which is caught and turned
into the empty result list. -/
def search_similar_run (raised : Bool) (st : IndexState) (q : List ℚ)
    (top_k : ℕ) : List MatchResult :=
  if raised then [] else search_similar st q top_k

/-- Modelled from the spec (§4.6 step 4), for comparison with the code: the
claimed re-rank stage blends each candidate's ORB similarity with its
embedding similarity, `final = w * orb + (1-w) * sim`, and re-sorts the
candidate list by `final` in non-increasing order. `orbSim` gives the ORB
similarity of the query against a stored filename. -/
def search_similar_rerank_spec (orbSim : String → ℚ) (orb_weight : ℚ)
    (st : IndexState) (q : List ℚ) (top_k : ℕ) : List MatchResult :=
  sortDescBy (fun r => orb_weight * orbSim r.filename + (1 - orb_weight) * r.similarity)
    (search_similar st q top_k)

/-! ## Index rebuild (`ImageIndex.rebuild_index`) -/

/-- One row of `questions.csv` after the `answer` column has been defaulted to
`""` and coerced to string. -/
structure CatalogRow where
  filename : String
  answer : String
deriving DecidableEq

/-- The three ways `extractor.extract_features(image_path)` can end inside the
per-row `try`: a feature vector, `None`, or an exception (caught per row). -/
inductive ExtractOutcome where
  | ok (v : List ℚ)
  | failed
  | raised
deriving DecidableEq

/-- The exceptions that can escape `rebuild_index`. -/
inductive RebuildError where
  | csvMissing
  | noFilenameColumn
  | extractorInit
  | saveFailed
deriving DecidableEq

/-- Outcome of `rebuild_index`: either an escaped exception together with the
in-memory state left behind, or `(success_count, total_count)` with the newly
built state. -/
inductive RebuildResult where
  | fatal (e : RebuildError) (st : IndexState)
  | ok (st : IndexState) (success total : ℕ)
deriving DecidableEq

/-- The environment a rebuild runs against: whether the catalog file exists and
parses, whether it has a `filename` column, whether `ImageFeatureExtractor()`
constructs, the catalog rows, `_resolve_image_path` (returning the resolved
file's base name, `None` when no file matches), `extract_features` per resolved
file, and whether `save_index` succeeds. -/
structure RebuildEnv where
  catalogExists : Bool
  hasFilenameColumn : Bool
  extractorInitOk : Bool
  rows : List CatalogRow
  resolve : String → Option String
  extract : String → ExtractOutcome
  saveOk : Bool

/-- The per-row body of the rebuild loop, threading
`(state, success_count, missing_files)`. -/
def rebuildStep (env : RebuildEnv) (acc : IndexState × ℕ × ℕ) (r : CatalogRow) :
    IndexState × ℕ × ℕ :=
  match env.resolve r.filename with
  | none => (acc.1, acc.2.1, acc.2.2 + 1)
  | some resolvedName =>
    match env.extract resolvedName with
    | .ok v => (add_image resolvedName r.answer v acc.1, acc.2.1 + 1, acc.2.2)
    | .failed => acc
    | .raised => acc

/-- The rows actually processed: every filename sanitized, rows whose
sanitized filename is empty dropped; `total_count = len(df)` is the length of
this list. -/
def rebuildRows (env : RebuildEnv) : List CatalogRow :=
  (env.rows.map (fun r =>
      { r with filename := String.mk (sanitize_filename r.filename.toList) }))
    |>.filter (fun r => r.filename != "")

/-- `ImageIndex.rebuild_index`: abort on a missing catalog, a catalog without a
`filename` column, or a failing extractor construction (state unchanged);
otherwise sanitize the filenames, drop rows whose sanitized filename is empty,
rebuild from a fresh empty 512-dim index tolerating per-row problems, and
finally save — a failing save aborts after the state has already been
replaced by the newly built one. -/
def rebuild_index (env : RebuildEnv) (st : IndexState) : RebuildResult :=
  if env.catalogExists = false then .fatal .csvMissing st
  else if env.hasFilenameColumn = false then .fatal .noFilenameColumn st
  else if env.extractorInitOk = false then .fatal .extractorInit st
  else if env.saveOk = false then
    .fatal .saveFailed ((rebuildRows env).foldl (rebuildStep env) (emptyIndex, 0, 0)).1
  else
    .ok ((rebuildRows env).foldl (rebuildStep env) (emptyIndex, 0, 0)).1
      ((rebuildRows env).foldl (rebuildStep env) (emptyIndex, 0, 0)).2.1
      (rebuildRows env).length

/-! ## Operation sequences over the index -/

/-- The index operations of the claim: load, add, remove, rebuild. -/
inductive IndexOp where
  | load (src : LoadSource)
  | add (filename answer : String) (features : List ℚ)
  | remove (filename : String)
  | rebuild (env : RebuildEnv)

/-- Apply one operation to the in-memory state. -/
def applyOp (st : IndexState) : IndexOp → IndexState
  | .load src => load_index src
  | .add f a v => add_image f a v st
  | .remove f => remove_image f st
  | .rebuild env =>
    match rebuild_index env st with
    | .fatal _ st' => st'
    | .ok st' _ _ => st'

/-- Run a sequence of operations from a starting state. -/
def runOps (st : IndexState) (ops : List IndexOp) : IndexState :=
  ops.foldl applyOp st

/-! ## ROI detection (`_detect_symbol_roi_top_left` in `cab/feature_extractor.py`) -/

/-- A contour's bounding rectangle as returned by `cv2.boundingRect`. -/
structure Rect where
  x : ℕ
  y : ℕ
  w : ℕ
  h : ℕ
deriving DecidableEq

/-- The candidate score `area - 0.1 * (x + y)` (exact-rational model of the
float expression). -/
def rectScore (r : Rect) : ℚ :=
  ((r.w * r.h : ℕ) : ℚ) - (1 / 10) * ((r.x + r.y : ℕ) : ℚ)

/-- The minimum-area filter threshold `max(50, int(full_area * min_area_frac))`
(Python `int()` truncates; for the nonnegative products arising here this is
the floor). -/
def roiMinArea (fullArea : ℕ) (minAreaFrac : ℚ) : ℕ :=
  max 50 (⌊(fullArea : ℚ) * minAreaFrac⌋).toNat

/-- The body of the candidate-selection loop: skip rectangles below the area
threshold, keep the first rectangle whose score strictly exceeds the best
score so far (`best_area`, initialized to `0`). -/
def roiStep (thresh : ℕ) (acc : Option Rect × ℚ) (r : Rect) : Option Rect × ℚ :=
  if r.w * r.h < thresh then acc
  else if acc.2 < rectScore r then (some r, rectScore r) else acc

/-- The selection loop over all contour bounding rectangles. -/
def roiScan (thresh : ℕ) (rects : List Rect) : Option Rect :=
  (rects.foldl (roiStep thresh) (none, 0)).1

/-- Pad the winning rectangle by `pad` on all sides and clamp to the image:
`(max(0, x-pad), max(0, y-pad), min(W, x+w+pad), min(H, y+h+pad))`. -/
def padClamp (W H pad : ℕ) (r : Rect) : ℕ × ℕ × ℕ × ℕ :=
  (r.x - pad, r.y - pad, min W (r.x + r.w + pad), min H (r.y + r.h + pad))

/-- `_detect_symbol_roi_top_left` from the contour list onward: `None` when no
contours were found, otherwise run the selection loop and pad/clamp the winner
(if any). `W`, `H` are the full image's width and height. -/
def detect_symbol_roi (W H pad : ℕ) (minAreaFrac : ℚ) (rects : List Rect) :
    Option (ℕ × ℕ × ℕ × ℕ) :=
  if rects = [] then none
  else
    match roiScan (roiMinArea (H * W) minAreaFrac) rects with
    | none => none
    | some r => some (padClamp W H pad r)

/-! ## Embedding fusion (`ImageFeatureExtractor.extract_features`) -/

/-- The fusion tail of `extract_features` when a region embedding exists:
clamp `α` to `[0,1]`, form `combined = α * feat_roi + (1-α) * feat_full`, and
divide by `norm + 1e-12`. The float `np.linalg.norm(combined)` is passed in as
`n`, constrained in the theorems to be the exact norm (`0 ≤ n`,
`n * n = norm2sq combined`). -/
def fuseFeatures (alphaEnv : ℚ) (feat_roi feat_full : List ℚ) (n : ℚ) :
    List ℚ :=
  let alpha := max 0 (min 1 alphaEnv)
  let combined := vecAdd (smul alpha feat_roi) (smul (1 - alpha) feat_full)
  smul (1 / (n + 1 / 1000000000000)) combined

/-- The `combined` vector before renormalization. -/
def combinedVec (alphaEnv : ℚ) (feat_roi feat_full : List ℚ) : List ℚ :=
  vecAdd (smul (max 0 (min 1 alphaEnv)) feat_roi)
    (smul (1 - max 0 (min 1 alphaEnv)) feat_full)

/-- The returned vector of `extract_features`: the fused-and-renormalized
vector when a region embedding was produced, otherwise the full-image
embedding unmodified. -/
def extract_features_out (alphaEnv : ℚ) (feat_full : List ℚ)
    (feat_roi : Option (List ℚ)) (n : ℚ) : List ℚ :=
  match feat_roi with
  | none => feat_full
  | some r => fuseFeatures alphaEnv r feat_full n

/-! ## ORB similarity (`ImageFeatureExtractor.compute_orb_similarity`) -/

/-- `compute_orb_similarity`, with the OpenCV outcomes passed in explicitly:
`raised` models any internal exception (caught, returning `0.0`); `d1ok`,
`d2ok` say whether `detectAndCompute` produced descriptors; `k1`, `k2` are the
keypoint counts; `good` is the number of Lowe-ratio-accepted matches. -/
def compute_orb_similarity (raised d1ok d2ok : Bool) (k1 k2 good : ℕ) : ℚ :=
  if raised then 0
  else if d1ok = false ∨ d2ok = false ∨ k1 < 10 ∨ k2 < 10 then 0
  else if good = 0 then 0
  else min 1 ((good : ℚ) / ((max 1 (min k1 k2) : ℕ) : ℚ))

/-! ## Helper lemmas about the stable descending sort -/

theorem length_insertDescBy {α : Type*} (key : α → ℚ) (x : α) (l : List α) :
    (insertDescBy key x l).length = l.length + 1 := by
  induction l with
  | nil => rfl
  | cons y ys ih =>
    unfold insertDescBy
    split
    · rfl
    · simp only [List.length_cons, ih]

theorem length_sortDescBy {α : Type*} (key : α → ℚ) (l : List α) :
    (sortDescBy key l).length = l.length := by
  induction l with
  | nil => rfl
  | cons x xs ih => simp [sortDescBy, length_insertDescBy, ih]

theorem mem_insertDescBy {α : Type*} (key : α → ℚ) (x y : α) (l : List α) :
    y ∈ insertDescBy key x l ↔ y = x ∨ y ∈ l := by
  induction l with
  | nil => simp [insertDescBy]
  | cons z zs ih =>
    unfold insertDescBy
    split
    · simp [List.mem_cons]
    · simp only [List.mem_cons, ih]
      tauto

theorem mem_sortDescBy {α : Type*} (key : α → ℚ) (y : α) (l : List α) :
    y ∈ sortDescBy key l ↔ y ∈ l := by
  induction l with
  | nil => simp [sortDescBy]
  | cons x xs ih => simp [sortDescBy, mem_insertDescBy, ih]

theorem sorted_insertDescBy {α : Type*} (key : α → ℚ) (x : α) (l : List α)
    (h : l.Pairwise (fun a b => key b ≤ key a)) :
    (insertDescBy key x l).Pairwise (fun a b => key b ≤ key a) := by
  induction l with
  | nil => simp [insertDescBy]
  | cons y ys ih =>
    rw [List.pairwise_cons] at h
    unfold insertDescBy
    split
    · rename_i hk
      refine List.pairwise_cons.mpr ⟨?_, List.pairwise_cons.mpr h⟩
      intro z hz
      rcases List.mem_cons.mp hz with hz | hz
      · exact hz ▸ hk
      · exact le_trans (h.1 z hz) hk
    · rename_i hk
      refine List.pairwise_cons.mpr ⟨?_, ih h.2⟩
      intro z hz
      rcases (mem_insertDescBy key x z ys).mp hz with hz | hz
      · exact hz ▸ le_of_lt (lt_of_not_le hk)
      · exact h.1 z hz

theorem sorted_sortDescBy {α : Type*} (key : α → ℚ) (l : List α) :
    (sortDescBy key l).Pairwise (fun a b => key b ≤ key a) := by
  induction l with
  | nil => simp [sortDescBy]
  | cons x xs ih => exact sorted_insertDescBy key x _ ih

/-- The list `search_similar` returns is in non-increasing similarity order. -/
theorem search_similar_pairwise (st : IndexState) (q : List ℚ) (k : ℕ) :
    (search_similar st q k).Pairwise (fun a b => b.similarity ≤ a.similarity) := by
  unfold search_similar
  split
  · exact List.Pairwise.nil
  · exact sorted_sortDescBy (fun r : MatchResult => r.similarity) _

/-! ## C3: shape of the search result -/

/-- C3: for every query vector `q` and every `top_k`, `search_similar` returns
at most `min top_k index_size` results, sorted by non-increasing similarity,
each tagged with a 1-based rank, and returns the empty list whenever the index
is empty. -/
theorem search_similar_wellformed (st : IndexState) (q : List ℚ) (top_k : ℕ) :
    (search_similar st q top_k).length ≤ min top_k st.vectors.length ∧
    (search_similar st q top_k).Pairwise (fun a b => b.similarity ≤ a.similarity) ∧
    (∀ r ∈ search_similar st q top_k, 1 ≤ r.rank) ∧
    (st.vectors.length = 0 → search_similar st q top_k = []) := by
  refine ⟨?_, search_similar_pairwise st q top_k, ?_, ?_⟩
  · unfold search_similar
    split
    · simp
    · rw [length_sortDescBy]
      calc (List.filterMap _ _).length
          ≤ (faissTopK st.vectors q (min top_k st.vectors.length)).enum.length :=
            List.length_filterMap_le _ _
        _ = (faissTopK st.vectors q (min top_k st.vectors.length)).length :=
            List.enum_length
        _ ≤ min top_k st.vectors.length := by
            unfold faissTopK
            exact List.length_take_le _ _
  · intro r hr
    unfold search_similar at hr
    split at hr
    · exact absurd hr (List.not_mem_nil r)
    · rw [mem_sortDescBy] at hr
      obtain ⟨p, _, hf⟩ := List.mem_filterMap.mp hr
      by_cases h : p.2.2 < st.metadata.length
      · rw [dif_pos h] at hf
        cases hf
        exact Nat.succ_le_succ (Nat.zero_le _)
      · rw [dif_neg h] at hf
        exact absurd hf (by simp)
  · intro h
    unfold search_similar
    rw [if_pos h]

/-- Witness for C3 at a concrete input: the empty index yields no results. -/
theorem search_similar_wellformed_witness :
    search_similar emptyIndex [1] 3 = [] :=
  (search_similar_wellformed emptyIndex [1] 3).2.2.2 rfl

/-! ## C2: the ORB re-rank stage is prepared but never executed -/

/-- C2 (amended): with re-ranking enabled (the default) the second-stage block
only reads and clamps the environment weight and constructs an extractor; it
computes no ORB similarity and does not re-sort, so the returned list equals
the embedding-similarity ordering and is independent of the re-rank flag and
the weight. -/
theorem search_similar_rerank_not_applied (re : Bool) (w : ℚ)
    (st : IndexState) (q : List ℚ) (top_k : ℕ) :
    search_similar_env re w st q top_k = search_similar st q top_k ∧
    (search_similar_env re w st q top_k).Pairwise
      (fun a b => b.similarity ≤ a.similarity) :=
  ⟨rfl, search_similar_pairwise st q top_k⟩

/-- Counterexample for C2 as stated: a two-image index and an ORB scorer under
which the spec's blended re-sort (weight `0.4`) must swap the two candidates,
yet the code (re-rank enabled, same weight) returns them in plain
embedding-similarity order. -/
theorem search_similar_rerank_cex :
    search_similar_env true (2/5)
        ⟨[[1, 0], [0, 1]], [("a.png", "1"), ("b.png", "2")], 2⟩ [3/5, 4/5] 2 ≠
      search_similar_rerank_spec (fun f => if f = "a.png" then 1 else 0) (2/5)
        ⟨[[1, 0], [0, 1]], [("a.png", "1"), ("b.png", "2")], 2⟩ [3/5, 4/5] 2 := by
  with_unfolding_all decide

/-! ## C4: filename-normalization idempotence -/

theorem nfkcChar_idem (c : Char) : nfkcChar (nfkcChar c) = nfkcChar c := by
  by_cases h1 : c = '，'
  · subst h1; decide
  by_cases h2 : c = '。'
  · subst h2; decide
  by_cases h3 : c = '；'
  · subst h3; decide
  by_cases h4 : c = '　'
  · subst h4; decide
  have hfix : nfkcChar c = c := by
    unfold nfkcChar
    rw [if_neg h1, if_neg h2, if_neg h3, if_neg h4]
  simp [hfix]

theorem map_self_of_fixed (f : Char → Char) (l : List Char)
    (h : ∀ c ∈ l, f c = c) : l.map f = l := by
  induction l with
  | nil => rfl
  | cons c t ih =>
    simp only [List.map_cons, h c (List.mem_cons_self c t),
      ih (fun d hd => h d (List.mem_cons_of_mem c hd))]

/-- Every character of a sanitized name comes from the NFKC-mapped input. -/
theorem sanitize_filename_subset (s : List Char) :
    ∀ c ∈ sanitize_filename s, c ∈ s.map nfkcChar := by
  intro c hc
  unfold sanitize_filename basename pyStrip at hc
  have h1 := (List.rtakeWhile_suffix _ _).sublist.subset hc
  have hpre := List.rdropWhile_prefix trailingPunct
    (((s.map nfkcChar).dropWhile pyWhitespace).rdropWhile pyWhitespace
      |>.dropWhile quoteChar |>.rdropWhile quoteChar)
  have h2 := hpre.sublist.subset h1
  have hpre2 := List.rdropWhile_prefix quoteChar
    (((s.map nfkcChar).dropWhile pyWhitespace).rdropWhile pyWhitespace
      |>.dropWhile quoteChar)
  have h3 := hpre2.sublist.subset h2
  have h4 := (List.dropWhile_suffix quoteChar).sublist.subset h3
  have hpre3 := List.rdropWhile_prefix pyWhitespace
    ((s.map nfkcChar).dropWhile pyWhitespace)
  have h5 := hpre3.sublist.subset h4
  exact (List.dropWhile_suffix pyWhitespace).sublist.subset h5

/-- The last character surviving the trailing-punctuation strip, seen through
`basename`, does not satisfy the stripped predicate. -/
theorem basename_getLast_not (p : Char → Bool) (l : List Char) :
    ∀ c, (basename (List.rdropWhile p l)).getLast? = some c → p c = false := by
  intro c hc
  have hsuf : basename (List.rdropWhile p l) <:+ List.rdropWhile p l := by
    unfold basename
    exact List.rtakeWhile_suffix _ _
  obtain ⟨t, ht⟩ := hsuf
  have hbne : basename (List.rdropWhile p l) ≠ [] := by
    intro he
    rw [he] at hc
    exact absurd hc (by simp)
  have hnne : List.rdropWhile p l ≠ [] := fun he =>
    hbne ((congrArg basename he).trans rfl)
  have hq : (List.rdropWhile p l).getLast? = some c := by
    rw [← ht, List.getLast?_append_of_ne_nil t hbne]
    exact hc
  have hgl : (List.rdropWhile p l).getLast hnne = c := by
    have := List.getLast?_eq_getLast (List.rdropWhile p l) hnne
    rw [this] at hq
    exact (Option.some.injEq _ _).mp hq
  have := List.rdropWhile_last_not p l hnne
  rw [hgl] at this
  exact Bool.eq_false_iff.mpr this

/-- C4 (amended): `_sanitize_filename` is idempotent on every input whose
sanitized form neither begins nor ends with a whitespace or quote character
(quote-stripping and basename extraction can expose such characters at the
front, which only a second pass removes); and sanitizing `"  foo.jpg，"`
yields `"foo.jpg"`. -/
theorem sanitize_filename_idem (s : List Char)
    (h : edgeOk (sanitize_filename s) = true) :
    sanitize_filename (sanitize_filename s) = sanitize_filename s ∧
    sanitize_filename "  foo.jpg，".toList = "foo.jpg".toList := by
  refine ⟨?_, by decide⟩
  have htail : ∀ c, (sanitize_filename s).getLast? = some c →
      trailingPunct c = false := fun c hc =>
    basename_getLast_not trailingPunct
      (pyStrip quoteChar (pyStrip pyWhitespace (s.map nfkcChar))) c hc
  have hnoslash : ∀ x ∈ sanitize_filename s, (x != '/') = true := by
    intro x hx
    have hx' : x ∈ List.rtakeWhile (fun c => c != '/')
        (List.rdropWhile trailingPunct
          (pyStrip quoteChar (pyStrip pyWhitespace (s.map nfkcChar)))) := hx
    exact @List.mem_rtakeWhile_imp Char (fun c => c != '/') _ x hx'
  have hsub := sanitize_filename_subset s
  set r := sanitize_filename s with hr
  have hmap : r.map nfkcChar = r := by
    refine map_self_of_fixed nfkcChar _ (fun c hc => ?_)
    obtain ⟨d, _, hd⟩ := List.mem_map.mp (hsub c hc)
    rw [← hd]
    exact nfkcChar_idem d
  have hedge : ∀ c, r.head? = some c ∨ r.getLast? = some c →
      pyWhitespace c = false ∧ quoteChar c = false := by
    intro c hc
    rcases hc with hc | hc
    · simp only [edgeOk, hc, Bool.and_eq_true, Bool.not_eq_true',
        Bool.or_eq_false_iff] at h
      exact h.1
    · simp only [edgeOk, hc, Bool.and_eq_true, Bool.not_eq_true',
        Bool.or_eq_false_iff] at h
      exact h.2
  have step1 : r.dropWhile pyWhitespace = r := by
    cases hrc : r with
    | nil => rfl
    | cons c t =>
      have hcnd := hedge c (Or.inl (by rw [hrc]; rfl))
      rw [List.dropWhile_cons, hcnd.1]
      simp
  have hlastNot : ∀ (p : Char → Bool),
      (∀ c, r.getLast? = some c → p c = false) → r.rdropWhile p = r := by
    intro p hp
    refine List.rdropWhile_eq_self_iff.mpr (fun hl => ?_)
    have := hp _ (List.getLast?_eq_getLast _ hl)
    exact fun hcontra => by rw [this] at hcontra; exact Bool.false_ne_true hcontra
  have step2 : r.rdropWhile pyWhitespace = r :=
    hlastNot pyWhitespace (fun c hc => (hedge c (Or.inr hc)).1)
  have step3 : r.dropWhile quoteChar = r := by
    cases hrc : r with
    | nil => rfl
    | cons c t =>
      have hcnd := hedge c (Or.inl (by rw [hrc]; rfl))
      rw [List.dropWhile_cons, hcnd.2]
      simp
  have step4 : r.rdropWhile quoteChar = r :=
    hlastNot quoteChar (fun c hc => (hedge c (Or.inr hc)).2)
  have step5 : r.rdropWhile trailingPunct = r := hlastNot trailingPunct htail
  have step6 : r.rtakeWhile (fun c => c != '/') = r :=
    List.rtakeWhile_eq_self_iff.mpr hnoslash
  show sanitize_filename r = r
  unfold sanitize_filename pyStrip basename
  rw [hmap, step1, step2, step3, step4, step5]
  exact step6

/-- Witness for C4 at a concrete input: a path-bearing name sanitized once is
a fixed point of a second pass. -/
theorem sanitize_filename_idem_witness :
    sanitize_filename (sanitize_filename "dir/q1.png".toList) =
      sanitize_filename "dir/q1.png".toList :=
  (sanitize_filename_idem "dir/q1.png".toList (by decide)).1

/-- Counterexample for C4 as stated: sanitizing `'" a"'` gives `' a'` (the
quote strip exposes a leading space after the whitespace strip has already
run), and a second pass gives `'a'`. -/
theorem sanitize_filename_idem_cex :
    sanitize_filename (sanitize_filename "\" a\"".toList) ≠
      sanitize_filename "\" a\"".toList := by
  decide

/-! ## C1: vector count vs. metadata count -/

theorem length_filter_not_add_length_filter {α : Type*} (p : α → Bool)
    (l : List α) :
    (l.filter (fun a => !(p a))).length + (l.filter p).length = l.length := by
  induction l with
  | nil => rfl
  | cons x t ih =>
    cases hx : p x <;> simp [List.filter_cons, hx] <;> omega

/-- One pass of the rebuild loop preserves equality of the vector and
metadata counts. -/
theorem rebuildStep_inv (env : RebuildEnv) (r : CatalogRow)
    (acc : IndexState × ℕ × ℕ)
    (h : acc.1.vectors.length = acc.1.metadata.length) :
    (rebuildStep env acc r).1.vectors.length =
      (rebuildStep env acc r).1.metadata.length := by
  unfold rebuildStep
  rcases env.resolve r.filename with _ | nm
  · exact h
  · dsimp only
    rcases env.extract nm with v | _ | _
    · simp [add_image, h]
    · exact h
    · exact h

/-- The rebuild loop preserves equality of the vector and metadata counts. -/
theorem rebuild_fold_inv (env : RebuildEnv) (l : List CatalogRow) :
    ∀ acc : IndexState × ℕ × ℕ, acc.1.vectors.length = acc.1.metadata.length →
      (l.foldl (rebuildStep env) acc).1.vectors.length =
        (l.foldl (rebuildStep env) acc).1.metadata.length := by
  induction l with
  | nil => exact fun acc h => h
  | cons r t ih =>
    intro acc h
    rw [List.foldl_cons]
    exact ih _ (rebuildStep_inv env r acc h)

/-- C1 (amended): loading (an empty or consistent persisted state), adding,
and a successful rebuild keep the vector count equal to the metadata count,
but `remove_image` removes only metadata: afterwards the vector count equals
the metadata count plus the number of matching entries removed, so the
invariant is broken until a rebuild whenever a matching entry existed. -/
theorem index_counts_invariant (st : IndexState) (f a : String) (v : List ℚ)
    (env : RebuildEnv) (d : ℕ) (vs : List (List ℚ))
    (ms : List (String × String))
    (hinv : st.vectors.length = st.metadata.length) :
    (add_image f a v st).vectors.length = (add_image f a v st).metadata.length ∧
    (remove_image f st).vectors.length =
      (remove_image f st).metadata.length +
        (st.metadata.filter (fun e => e.1 == f)).length ∧
    (∀ st' s t, rebuild_index env st = .ok st' s t →
      st'.vectors.length = st'.metadata.length) ∧
    (load_index .missing).vectors.length = (load_index .missing).metadata.length ∧
    (vs.length = ms.length →
      (load_index (.stored d vs ms)).vectors.length =
        (load_index (.stored d vs ms)).metadata.length) := by
  refine ⟨by simp [add_image, hinv], ?_, ?_, rfl, fun h => h⟩
  · unfold remove_image
    split
    · rename_i hempty
      rw [hempty]
      simpa using hinv
    · have hsplit : (st.metadata.filter (fun e => e.1 != f)).length +
          (st.metadata.filter (fun e => e.1 == f)).length = st.metadata.length :=
        length_filter_not_add_length_filter
          (fun e : String × String => e.1 == f) st.metadata
      dsimp only
      omega
  · intro st' s t hok
    unfold rebuild_index at hok
    split_ifs at hok
    rw [RebuildResult.ok.injEq] at hok
    rw [← hok.1]
    exact rebuild_fold_inv env _ (emptyIndex, 0, 0) rfl

/-- Witness for C1 at a concrete input: removing the only entry leaves one
vector and zero metadata entries (count difference exactly the one match). -/
theorem index_counts_invariant_witness :
    (remove_image "a.jpg" ⟨[[1]], [("a.jpg", "1")], 512⟩).vectors.length =
      (remove_image "a.jpg" ⟨[[1]], [("a.jpg", "1")], 512⟩).metadata.length +
        ((⟨[[1]], [("a.jpg", "1")], 512⟩ : IndexState).metadata.filter
          (fun e => e.1 == "a.jpg")).length :=
  (index_counts_invariant ⟨[[1]], [("a.jpg", "1")], 512⟩ "a.jpg" "x" [1]
    ⟨true, true, true, [], fun _ => none, fun _ => .failed, true⟩ 0 [] [] rfl).2.1

/-- Counterexample for C1 as stated: after `add "a.jpg"` then
`remove "a.jpg"` the index holds one vector but no metadata entry. -/
theorem index_counts_invariant_cex :
    ¬ ((runOps emptyIndex
          [IndexOp.add "a.jpg" "1" (List.replicate 512 1),
           IndexOp.remove "a.jpg"]).vectors.length =
        (runOps emptyIndex
          [IndexOp.add "a.jpg" "1" (List.replicate 512 1),
           IndexOp.remove "a.jpg"]).metadata.length) := by
  with_unfolding_all decide

/-! ## C6: rebuild counting and failure policy -/

/-- One pass of the rebuild loop raises the success count by at most one. -/
theorem rebuildStep_success_le (env : RebuildEnv) (r : CatalogRow)
    (acc : IndexState × ℕ × ℕ) :
    (rebuildStep env acc r).2.1 ≤ acc.2.1 + 1 := by
  unfold rebuildStep
  rcases env.resolve r.filename with _ | nm
  · dsimp only
    omega
  · dsimp only
    rcases env.extract nm with v | _ | _ <;> dsimp only <;> omega

/-- The rebuild loop's success count is bounded by the number of rows
processed. -/
theorem rebuild_fold_success_le (env : RebuildEnv) (l : List CatalogRow) :
    ∀ acc : IndexState × ℕ × ℕ,
      (l.foldl (rebuildStep env) acc).2.1 ≤ acc.2.1 + l.length := by
  induction l with
  | nil => intro acc; simp
  | cons r t ih =>
    intro acc
    rw [List.foldl_cons]
    have h1 := ih (rebuildStep env acc r)
    have h2 := rebuildStep_success_le env r acc
    simp only [List.length_cons]
    omega

/-- C6 (amended): `rebuild_index` aborts with a propagated error exactly when
the catalog file is missing, the catalog has no filename column, the feature
extractor fails to construct, or the final index save fails; per-row problems
never abort. On success it returns `(success_count, total_count)` where
`total_count` counts exactly the catalog rows whose sanitized filename is
non-empty (rows normalizing to the empty string are dropped before processing
and never counted) and `success_count` is at most `total_count`. -/
theorem rebuild_index_policy (env : RebuildEnv) (st : IndexState) :
    ((∃ e st', rebuild_index env st = .fatal e st') ↔
      (env.catalogExists = false ∨ env.hasFilenameColumn = false ∨
        env.extractorInitOk = false ∨ env.saveOk = false)) ∧
    (∀ st' s t, rebuild_index env st = .ok st' s t →
      t = (rebuildRows env).length ∧ s ≤ t) := by
  constructor
  · constructor
    · rintro ⟨e, st', he⟩
      unfold rebuild_index at he
      split_ifs at he with h1 h2 h3 h4 <;> tauto
    · intro h
      unfold rebuild_index
      split_ifs with h1 h2 h3 h4
      · exact ⟨_, _, rfl⟩
      · exact ⟨_, _, rfl⟩
      · exact ⟨_, _, rfl⟩
      · exact ⟨_, _, rfl⟩
      · tauto
  · intro st' s t hok
    unfold rebuild_index at hok
    split_ifs at hok
    rw [RebuildResult.ok.injEq] at hok
    refine ⟨hok.2.2.symm, ?_⟩
    rw [← hok.2.1, ← hok.2.2]
    simpa using rebuild_fold_success_le env (rebuildRows env) (emptyIndex, 0, 0)

/-- A concrete all-good rebuild environment: one resolvable row with a
trailing fullwidth comma in its filename, and one row that sanitizes to the
empty string. -/
def rebuildEnvSample : RebuildEnv :=
  ⟨true, true, true,
   [⟨"  q1.jpg，", "42"⟩, ⟨"   ,", ""⟩],
   fun s => if s = "q1.jpg" then some "q1.jpg" else none,
   fun _ => .ok [1],
   true⟩

/-- Witness for C6 at a concrete input: the sample rebuild succeeds with
`total_count = 1` (the empty-sanitizing row is never counted) and
`success_count ≤ total_count`. -/
theorem rebuild_index_policy_witness :
    (1 : ℕ) = (rebuildRows rebuildEnvSample).length ∧ (1 : ℕ) ≤ 1 :=
  (rebuild_index_policy rebuildEnvSample emptyIndex).2
    ⟨[[1]], [("q1.jpg", "42")], 512⟩ 1 1 (by with_unfolding_all decide)

/-- Counterexample for C6 as stated: with the catalog present and carrying a
filename column, a failing save still aborts the rebuild with a propagated
error. -/
theorem rebuild_index_abort_cex :
    rebuild_index ⟨true, true, true, [], fun _ => none, fun _ => .failed, false⟩
        emptyIndex =
      .fatal .saveFailed emptyIndex := by
  with_unfolding_all decide

/-! ## C9: load never raises -/

/-- C9: `load_index` is total (the `except` branch turns every failure into a
fresh start): a persisted pair deserializes to exactly its stored contents,
while missing files and any deserialization error both yield the empty
512-dimensional inner-product index with an empty metadata list. -/
theorem load_index_spec :
    load_index .missing = emptyIndex ∧
    load_index .corrupt = emptyIndex ∧
    emptyIndex = ⟨[], [], 512⟩ ∧
    ∀ d v m, load_index (.stored d v m) = ⟨v, m, d⟩ :=
  ⟨rfl, rfl, rfl, fun _ _ _ => rfl⟩

/-! ## C10: search never raises and errors are silent -/

/-- C10: the `try/except` around the search body makes `search_similar` total:
an internal exception yields `[]`; an empty index yields `[]`; an index whose
metadata list is empty (so no hit passes the bound check) yields `[]` — the
three cases are indistinguishable by the return value alone. -/
theorem search_similar_run_spec (st : IndexState) (q : List ℚ) (top_k : ℕ)
    (v : List (List ℚ)) (d : ℕ) :
    search_similar_run true st q top_k = [] ∧
    search_similar_run false emptyIndex q top_k = [] ∧
    search_similar_run true st q top_k =
      search_similar_run false emptyIndex q top_k ∧
    search_similar_run false ⟨v, [], d⟩ q top_k = [] := by
  refine ⟨rfl, rfl, rfl, ?_⟩
  show search_similar ⟨v, [], d⟩ q top_k = []
  unfold search_similar
  split
  · rfl
  · rw [List.filterMap_eq_nil_iff.mpr (fun p _ => dif_neg (Nat.not_lt_zero p.2.2))]
    rfl

/-! ## C8: ORB similarity range and zero cases -/

/-- C8: the ORB similarity is always in `[0, 1]` (it is clamped by
`min(1.0, ...)`), and it is exactly `0` whenever either image has fewer than
10 keypoints, either descriptor set is missing, or an internal exception
occurred. -/
theorem compute_orb_similarity_spec (raised d1ok d2ok : Bool)
    (k1 k2 good : ℕ) :
    (0 ≤ compute_orb_similarity raised d1ok d2ok k1 k2 good ∧
      compute_orb_similarity raised d1ok d2ok k1 k2 good ≤ 1) ∧
    ((k1 < 10 ∨ k2 < 10 ∨ d1ok = false ∨ d2ok = false ∨ raised = true) →
      compute_orb_similarity raised d1ok d2ok k1 k2 good = 0) := by
  constructor
  · unfold compute_orb_similarity
    split_ifs
    · exact ⟨le_refl 0, by norm_num⟩
    · exact ⟨le_refl 0, by norm_num⟩
    · exact ⟨le_refl 0, by norm_num⟩
    · refine ⟨le_min (by norm_num) (div_nonneg ?_ ?_), min_le_left 1 _⟩
      · exact Nat.cast_nonneg good
      · exact Nat.cast_nonneg _
  · intro h
    unfold compute_orb_similarity
    split_ifs <;> first | rfl | tauto

/-- Witness for C8 at a concrete input: 5 query keypoints is below the
10-keypoint floor, so the similarity is zero. -/
theorem compute_orb_similarity_spec_witness :
    compute_orb_similarity false true true 5 20 3 = 0 :=
  (compute_orb_similarity_spec false true true 5 20 3).2 (Or.inl (by decide))

/-! ## C5: ROI candidate selection -/

/-- Invariant of the ROI selection loop: the best score never decreases; the
accumulator is either untouched or holds a surviving rectangle whose score is
the (strictly increased) best score; and every surviving rectangle seen so
far scores at most the best score. -/
theorem roiFold_spec (thresh : ℕ) (l : List Rect) :
    ∀ (b : Option Rect) (s : ℚ),
      s ≤ (l.foldl (roiStep thresh) (b, s)).2 ∧
      (((l.foldl (roiStep thresh) (b, s)).1 = b ∧
          (l.foldl (roiStep thresh) (b, s)).2 = s) ∨
        (∃ r ∈ l, thresh ≤ r.w * r.h ∧
          (l.foldl (roiStep thresh) (b, s)).1 = some r ∧
          (l.foldl (roiStep thresh) (b, s)).2 = rectScore r ∧
          s < (l.foldl (roiStep thresh) (b, s)).2)) ∧
      (∀ r ∈ l, thresh ≤ r.w * r.h →
        rectScore r ≤ (l.foldl (roiStep thresh) (b, s)).2) := by
  induction l with
  | nil =>
    intro b s
    exact ⟨le_refl s, Or.inl ⟨rfl, rfl⟩, fun r hr => absurd hr (List.not_mem_nil r)⟩
  | cons r t ih =>
    intro b s
    rw [List.foldl_cons]
    by_cases hA : r.w * r.h < thresh
    · have hstep : roiStep thresh (b, s) r = (b, s) := by
        unfold roiStep
        rw [if_pos hA]
      rw [hstep]
      obtain ⟨i1, i2, i3⟩ := ih b s
      refine ⟨i1, ?_, ?_⟩
      · rcases i2 with h | ⟨r', hr', hs', h1, h2, h3⟩
        · exact Or.inl h
        · exact Or.inr ⟨r', List.mem_cons_of_mem r hr', hs', h1, h2, h3⟩
      · intro r' hr' hs'
        rcases List.mem_cons.mp hr' with he | he
        · exact absurd (he ▸ hs') (Nat.not_le.mpr hA)
        · exact i3 r' he hs'
    · by_cases hB : s < rectScore r
      · have hstep : roiStep thresh (b, s) r = (some r, rectScore r) := by
          unfold roiStep
          rw [if_neg hA, if_pos hB]
        rw [hstep]
        obtain ⟨i1, i2, i3⟩ := ih (some r) (rectScore r)
        refine ⟨le_of_lt (lt_of_lt_of_le hB i1), ?_, ?_⟩
        · rcases i2 with ⟨h1, h2⟩ | ⟨r', hr', hs', h1, h2, h3⟩
          · exact Or.inr ⟨r, List.mem_cons_self r t, Nat.not_lt.mp hA, h1, h2,
              lt_of_lt_of_le hB (h2 ▸ i1)⟩
          · exact Or.inr ⟨r', List.mem_cons_of_mem r hr', hs', h1, h2,
              lt_trans hB h3⟩
        · intro r' hr' hs'
          rcases List.mem_cons.mp hr' with he | he
          · exact he ▸ i1
          · exact i3 r' he hs'
      · have hstep : roiStep thresh (b, s) r = (b, s) := by
          unfold roiStep
          rw [if_neg hA, if_neg hB]
        rw [hstep]
        obtain ⟨i1, i2, i3⟩ := ih b s
        refine ⟨i1, ?_, ?_⟩
        · rcases i2 with h | ⟨r', hr', hs', h1, h2, h3⟩
          · exact Or.inl h
          · exact Or.inr ⟨r', List.mem_cons_of_mem r hr', hs', h1, h2, h3⟩
        · intro r' hr' hs'
          rcases List.mem_cons.mp hr' with he | he
          · exact le_trans (he ▸ not_lt.mp hB) i1
          · exact i3 r' he hs'

/-- C5 (amended): the detector returns `None` exactly when every rectangle
surviving the minimum-area filter has score `area - 0.1*(x+y) ≤ 0` (in
particular when none survives — the loop's best score starts at `0` and only
strictly larger scores are kept); otherwise it returns the padded, clamped
rectangle of a surviving candidate with positive and maximal score. -/
theorem detect_symbol_roi_spec (W H pad : ℕ) (frac : ℚ) (rects : List Rect) :
    (detect_symbol_roi W H pad frac rects = none ↔
      ∀ r ∈ rects, roiMinArea (H * W) frac ≤ r.w * r.h → rectScore r ≤ 0) ∧
    (∀ box, detect_symbol_roi W H pad frac rects = some box →
      ∃ r ∈ rects, roiMinArea (H * W) frac ≤ r.w * r.h ∧ 0 < rectScore r ∧
        box = padClamp W H pad r ∧
        ∀ r' ∈ rects, roiMinArea (H * W) frac ≤ r'.w * r'.h →
          rectScore r' ≤ rectScore r) := by
  by_cases hE : rects = []
  · subst hE
    constructor
    · constructor
      · intro _ r hr
        exact absurd hr (List.not_mem_nil r)
      · intro _
        rfl
    · intro box hbox
      exact absurd hbox (by simp [detect_symbol_roi])
  · obtain ⟨i1, i2, i3⟩ := roiFold_spec (roiMinArea (H * W) frac) rects none 0
    have hdet : detect_symbol_roi W H pad frac rects =
        match (rects.foldl (roiStep (roiMinArea (H * W) frac)) (none, 0)).1 with
        | none => none
        | some r => some (padClamp W H pad r) := by
      unfold detect_symbol_roi roiScan
      rw [if_neg hE]
    constructor
    · constructor
      · intro hnone r hr hs
        rw [hdet] at hnone
        rcases hres : (rects.foldl (roiStep (roiMinArea (H * W) frac)) (none, 0)).1
          with _ | r₀
        · rcases i2 with ⟨_, h2⟩ | ⟨r', _, _, h1, _, _⟩
          · rw [h2] at i3
            exact i3 r hr hs
          · rw [h1] at hres
            exact absurd hres (by simp)
        · rw [hres] at hnone
          exact absurd hnone (by simp)
      · intro hall
        rw [hdet]
        rcases i2 with ⟨h1, _⟩ | ⟨r', hr', hs', h1, h2, h3⟩
        · rw [h1]
        · have := hall r' hr' hs'
          rw [h2] at h3
          exact absurd (lt_of_le_of_lt this h3) (lt_irrefl _)
    · intro box hbox
      rw [hdet] at hbox
      rcases hres : (rects.foldl (roiStep (roiMinArea (H * W) frac)) (none, 0)).1
        with _ | r₀
      · rw [hres] at hbox
        exact absurd hbox (by simp)
      · rw [hres] at hbox
        rcases i2 with ⟨h1, _⟩ | ⟨r', hr', hs', h1, h2, h3⟩
        · rw [h1] at hres
          exact absurd hres (by simp)
        · rw [h1] at hres
          have hrr : r' = r₀ := (Option.some.injEq _ _).mp hres
          have hb2 : some (padClamp W H pad r₀) = some box := hbox
          have hbeq : padClamp W H pad r₀ = box := (Option.some.injEq _ _).mp hb2
          refine ⟨r', hr', hs', ?_, ?_, ?_⟩
          · rw [h2] at h3
            exact h3
          · rw [← hbeq, hrr]
          · intro r'' hr'' hs''
            have := i3 r'' hr'' hs''
            rwa [h2] at this

/-- Witness for C5 at a concrete input: a 10×10 rectangle at the origin of a
100×100 image survives the filter with positive score, so the detector does
not return `None`. -/
theorem detect_symbol_roi_spec_witness :
    detect_symbol_roi 100 100 8 (1/1000) [⟨0, 0, 10, 10⟩] ≠ none := by
  intro hn
  have h := (detect_symbol_roi_spec 100 100 8 (1/1000) [⟨0, 0, 10, 10⟩]).1.mp hn
    ⟨0, 0, 10, 10⟩ (List.mem_singleton.mpr rfl) (by with_unfolding_all decide)
  exact absurd h (by with_unfolding_all decide)

/-- Counterexample for C5 as stated: on a 5000×10 image the 50×1 rectangle at
`x = 600` survives the minimum-area filter (area 50 ≥ threshold 50), yet its
score `50 - 0.1*600 = -10` never beats the loop's initial best score `0`, so
the detector returns `None` although a candidate survived. -/
theorem detect_symbol_roi_cex :
    roiMinArea (10 * 5000) (1/1000) ≤
        (⟨600, 0, 50, 1⟩ : Rect).w * (⟨600, 0, 50, 1⟩ : Rect).h ∧
      detect_symbol_roi 5000 10 8 (1/1000) [⟨600, 0, 50, 1⟩] = none := by
  with_unfolding_all decide

/-! ## C7: unit norm of produced embeddings -/

theorem norm2sq_smul (a : ℚ) (w : List ℚ) :
    norm2sq (smul a w) = a * a * norm2sq w := by
  induction w with
  | nil => simp [norm2sq, smul]
  | cons x t ih =>
    simp only [smul, List.map_cons, norm2sq, List.sum_cons] at ih ⊢
    rw [ih]
    ring

/-- C7 (amended): when a region embedding exists, the fused vector is divided
by `‖combined‖ + 1e-12`, so its squared norm lies in `[1 - 1e-6, 1]` provided
the fused vector's exact norm `n` is at least `1/1000` (the non-degenerate
case; `n` is tied to the model by `n * n = ‖combined‖²`); when no region
embedding exists, the unit full-image embedding is returned unmodified. -/
theorem extract_features_unit_norm (alphaEnv : ℚ) (u v : List ℚ) (n : ℚ)
    (hn : n * n = norm2sq (combinedVec alphaEnv u v)) (hnn : 0 ≤ n)
    (hlarge : 1/1000 ≤ n) (hfull : norm2sq v = 1) :
    (1 - 1/1000000 ≤ norm2sq (extract_features_out alphaEnv v (some u) n) ∧
      norm2sq (extract_features_out alphaEnv v (some u) n) ≤ 1) ∧
    norm2sq (extract_features_out alphaEnv v none n) = 1 := by
  refine ⟨?_, hfull⟩
  have hres : norm2sq (extract_features_out alphaEnv v (some u) n) =
      (1 / (n + 1/1000000000000)) * (1 / (n + 1/1000000000000)) * (n * n) := by
    show norm2sq (smul (1 / (n + 1/1000000000000)) (combinedVec alphaEnv u v)) = _
    rw [norm2sq_smul, ← hn]
  have hdpos : 0 < n + 1/1000000000000 := by
    have h2 : (0 : ℚ) < 1/1000000000000 := by norm_num
    linarith
  have hkey : (1 / (n + 1/1000000000000)) * (1 / (n + 1/1000000000000)) * (n * n) =
      (n * n) / ((n + 1/1000000000000) * (n + 1/1000000000000)) := by
    field_simp
    ring
  rw [hres, hkey]
  constructor
  · rw [le_div_iff₀ (mul_pos hdpos hdpos)]
    nlinarith [hlarge, hnn]
  · rw [div_le_one (mul_pos hdpos hdpos)]
    nlinarith [hnn]

/-- Witness for C7 at a concrete input: fusing a unit region embedding with
itself (default `α = 0.7`) keeps the squared norm within `1e-6` of `1`. -/
theorem extract_features_unit_norm_witness :
    1 - 1/1000000 ≤
        norm2sq (extract_features_out (7/10) [3/5, 4/5] (some [3/5, 4/5]) 1) ∧
      norm2sq (extract_features_out (7/10) [3/5, 4/5] (some [3/5, 4/5]) 1) ≤ 1 :=
  (extract_features_unit_norm (7/10) [3/5, 4/5] [3/5, 4/5] 1
    (by with_unfolding_all decide) (by with_unfolding_all decide)
    (by with_unfolding_all decide) (by with_unfolding_all decide)).1

/-- Counterexample for C7 as stated: with `α = 0.5` and a region embedding
exactly opposite to the full embedding — both unit vectors, and `n = 0` is the
exact norm of the fused vector — the returned vector is the zero vector, whose
norm is not within any tolerance of 1. -/
theorem extract_features_unit_norm_cex :
    norm2sq [(1 : ℚ), 0] = 1 ∧ norm2sq [(-1 : ℚ), 0] = 1 ∧
    (0 : ℚ) * 0 = norm2sq (combinedVec (1/2) [1, 0] [-1, 0]) ∧
    norm2sq (extract_features_out (1/2) [-1, 0] (some [1, 0]) 0) = 0 ∧
    ¬ (1 - 1/1000000 ≤
        norm2sq (extract_features_out (1/2) [-1, 0] (some [1, 0]) 0)) := by
  with_unfolding_all decide

end CabSpec
